import Mathlib

/-!
Formal model of the post-indexing script (`scripts/index-posts.ts`, and its
later revision adding a `name`/slug field) of a Markdown blog repository.

The script reads every post directory, parses each `index.md` into YAML
frontmatter plus body, validates the frontmatter against a TypeBox schema,
computes a reading-time estimate from the body, and writes a JSON index.

The embedding models:
* `new Date(string)` / `Date.prototype.toISOString` (the `Decode`/`Encode`
  arrows of the `DateT` transform) on the UTC forms of the ECMAScript
  Date Time String Format;
* the `reading-time` npm package (`countWords` / `.time` in milliseconds);
* TypeBox `Value.Decode` (check against the required schema, first error
  reported, transforms applied to known keys, unknown keys retained);
* the file pipeline (`readdir` filter, `Promise.all`, `map`, `Bun.write`)
  as explicit state passing over an `Env` describing the posts root.
-/

/-! ### JS `Date`: the `DateT` transform of `index-posts.ts`

A JS `Date` constructed from an ISO string is modelled by its broken-down
UTC components.  `none` (in `Option JSDate`) models an Invalid Date.
The parser covers the UTC forms of the ECMAScript Date Time String Format:
`YYYY`, `YYYY-MM`, `YYYY-MM-DD`, and `YYYY-MM-DDTHH:mm[:ss[.sss]]Z`
(offset-less date-times are interpreted as local time by ECMAScript and are
outside this model, as is the special `24:00` hour). -/

structure JSDate where
  year : Nat
  month : Nat
  day : Nat
  hour : Nat
  minute : Nat
  second : Nat
  ms : Nat
  deriving DecidableEq, Repr

def isLeapYear (y : Nat) : Bool :=
  y % 4 == 0 && (y % 100 != 0 || y % 400 == 0)

def daysInMonth (y m : Nat) : Nat :=
  if m == 2 then (if isLeapYear y then 29 else 28)
  else if m == 4 || m == 6 || m == 9 || m == 11 then 30
  else 31

/-- Component bounds under which a `JSDate` denotes an actual calendar
instant printable by `toISOString` with a 4-digit year. -/
def validDate (d : JSDate) : Bool :=
  decide (d.year ≤ 9999) && decide (1 ≤ d.month) && decide (d.month ≤ 12) &&
    decide (1 ≤ d.day) && decide (d.day ≤ daysInMonth d.year d.month) &&
    decide (d.hour ≤ 23) && decide (d.minute ≤ 59) && decide (d.second ≤ 59) &&
    decide (d.ms ≤ 999)

def digit? (c : Char) : Option Nat :=
  if c.isDigit then some (c.toNat - 48) else none

def parse2 : List Char → Option (Nat × List Char)
  | a :: b :: rest =>
    match digit? a, digit? b with
    | some x, some y => some (10 * x + y, rest)
    | _, _ => none
  | _ => none

def parse3 : List Char → Option (Nat × List Char)
  | a :: b :: c :: rest =>
    match digit? a, digit? b, digit? c with
    | some x, some y, some z => some (100 * x + 10 * y + z, rest)
    | _, _, _ => none
  | _ => none

def parse4 : List Char → Option (Nat × List Char)
  | a :: b :: c :: d :: rest =>
    match digit? a, digit? b, digit? c, digit? d with
    | some x, some y, some z, some w => some (1000 * x + 100 * y + 10 * z + w, rest)
    | _, _, _, _ => none
  | _ => none

def mkDate (y mo d h mi s ms : Nat) : Option JSDate :=
  let date : JSDate := ⟨y, mo, d, h, mi, s, ms⟩
  if validDate date then some date else none

/-- Time-of-day part following the `T`: `HH:mm[:ss[.sss]]Z`. -/
def parseTime (l : List Char) : Option (Nat × Nat × Nat × Nat) :=
  match parse2 l with
  | none => none
  | some (h, r) =>
    match r with
    | [] => none
    | c :: r1 =>
      if c = ':' then
        match parse2 r1 with
        | none => none
        | some (mi, r2) =>
          if r2 = ['Z'] then some (h, mi, 0, 0)
          else
            match r2 with
            | [] => none
            | c2 :: r3 =>
              if c2 = ':' then
                match parse2 r3 with
                | none => none
                | some (s, r4) =>
                  if r4 = ['Z'] then some (h, mi, s, 0)
                  else
                    match r4 with
                    | [] => none
                    | c3 :: r5 =>
                      if c3 = '.' then
                        match parse3 r5 with
                        | none => none
                        | some (ms, r6) =>
                          if r6 = ['Z'] then some (h, mi, s, ms) else none
                      else none
              else none
      else none

def parseDateChars (l : List Char) : Option JSDate :=
  match parse4 l with
  | none => none
  | some (y, r) =>
    match r with
    | [] => mkDate y 1 1 0 0 0 0
    | c :: r1 =>
      if c = '-' then
        match parse2 r1 with
        | none => none
        | some (mo, r2) =>
          match r2 with
          | [] => mkDate y mo 1 0 0 0 0
          | c2 :: r3 =>
            if c2 = '-' then
              match parse2 r3 with
              | none => none
              | some (d, r4) =>
                match r4 with
                | [] => mkDate y mo d 0 0 0 0
                | c3 :: r5 =>
                  if c3 = 'T' then
                    match parseTime r5 with
                    | none => none
                    | some (h, mi, s, ms) => mkDate y mo d h mi s ms
                  else none
            else none
      else none

def pad2 (n : Nat) : List Char :=
  [Nat.digitChar (n / 10 % 10), Nat.digitChar (n % 10)]

def pad3 (n : Nat) : List Char :=
  [Nat.digitChar (n / 100 % 10), Nat.digitChar (n / 10 % 10), Nat.digitChar (n % 10)]

def pad4 (n : Nat) : List Char :=
  [Nat.digitChar (n / 1000 % 10), Nat.digitChar (n / 100 % 10),
    Nat.digitChar (n / 10 % 10), Nat.digitChar (n % 10)]

def toISOChars (d : JSDate) : List Char :=
  pad4 d.year ++ '-' :: pad2 d.month ++ '-' :: pad2 d.day ++ 'T' :: pad2 d.hour
    ++ ':' :: pad2 d.minute ++ ':' :: pad2 d.second ++ '.' :: pad3 d.ms ++ ['Z']

namespace DateT

/-- `DateT`'s `Decode` arrow: `value => new Date(value)`. -/
def Decode (s : String) : Option JSDate := parseDateChars s.toList

/-- `DateT`'s `Encode` arrow: `value => value.toISOString()`. -/
def Encode (d : JSDate) : String := String.mk (toISOChars d)

end DateT

theorem digit?_digitChar : ∀ k, k < 10 → digit? (Nat.digitChar k) = some k := by decide

theorem parse2_pad2 (n : Nat) (r : List Char) :
    parse2 (pad2 n ++ r) = some (n % 100, r) := by
  simp [pad2, parse2, digit?_digitChar (n / 10 % 10) (by omega),
    digit?_digitChar (n % 10) (by omega)]
  omega

theorem parse3_pad3 (n : Nat) (r : List Char) :
    parse3 (pad3 n ++ r) = some (n % 1000, r) := by
  simp [pad3, parse3, digit?_digitChar (n / 100 % 10) (by omega),
    digit?_digitChar (n / 10 % 10) (by omega), digit?_digitChar (n % 10) (by omega)]
  omega

theorem parse4_pad4 (n : Nat) (r : List Char) :
    parse4 (pad4 n ++ r) = some (n % 10000, r) := by
  simp [pad4, parse4, digit?_digitChar (n / 1000 % 10) (by omega),
    digit?_digitChar (n / 100 % 10) (by omega),
    digit?_digitChar (n / 10 % 10) (by omega), digit?_digitChar (n % 10) (by omega)]
  omega

theorem daysInMonth_le (y m : Nat) : daysInMonth y m ≤ 31 := by
  unfold daysInMonth
  split
  · split <;> omega
  · split <;> omega

theorem decode_encode (d : JSDate) (h : validDate d = true) :
    DateT.Decode (DateT.Encode d) = some d := by
  obtain ⟨y, mo, dd, hh, mi, s, ms⟩ := d
  have hday : dd ≤ 31 := by
    have h31 := daysInMonth_le y mo
    simp [validDate] at h
    omega
  simp [validDate] at h
  obtain ⟨⟨⟨⟨⟨⟨⟨⟨hy, hmo1⟩, hmo2⟩, hd1⟩, hd2⟩, hh'⟩, hmi⟩, hs⟩, hms⟩ := h
  have hval : validDate ⟨y, mo, dd, hh, mi, s, ms⟩ = true := by
    simp [validDate]
    exact ⟨⟨⟨⟨⟨⟨⟨⟨hy, hmo1⟩, hmo2⟩, hd1⟩, hd2⟩, hh'⟩, hmi⟩, hs⟩, hms⟩
  show parseDateChars (toISOChars ⟨y, mo, dd, hh, mi, s, ms⟩) = some ⟨y, mo, dd, hh, mi, s, ms⟩
  simp only [toISOChars, List.append_assoc, List.cons_append]
  simp [parseDateChars, parseTime, parse4_pad4, parse2_pad2, parse3_pad3]
  simp only [Nat.mod_eq_of_lt (by omega : y < 10000),
    Nat.mod_eq_of_lt (by omega : mo < 100), Nat.mod_eq_of_lt (by omega : dd < 100),
    Nat.mod_eq_of_lt (by omega : hh < 100), Nat.mod_eq_of_lt (by omega : mi < 100),
    Nat.mod_eq_of_lt (by omega : s < 100), Nat.mod_eq_of_lt (by omega : ms < 1000)]
  simp [mkDate, hval]

/-- C1 (counterexample): the `DateT` encode/decode pair are not inverses on
every well-formed input: the valid timestamp text `"2024-01-01"` decodes to a
date value that re-encodes to `"2024-01-01T00:00:00.000Z"`, not to the
original text. -/
theorem published_roundtrip_counterexample :
    (DateT.Decode "2024-01-01").map DateT.Encode = some "2024-01-01T00:00:00.000Z" ∧
    "2024-01-01T00:00:00.000Z" ≠ "2024-01-01" := by
  constructor
  · decide
  · decide

/-- C1 (amended): decoding then re-encoding the `published` timestamp text
returns the original string exactly when the input is already in the
canonical full ISO-8601 UTC millisecond form produced by `toISOString`
(i.e. in the image of the `Encode` arrow on valid dates); shorter accepted
forms such as a bare `YYYY-MM-DD` re-encode to a different string. -/
theorem published_roundtrip_canonical (s : String) (d : JSDate)
    (hd : validDate d = true) (hs : s = DateT.Encode d) :
    (DateT.Decode s).map DateT.Encode = some s := by
  subst hs
  rw [decode_encode d hd]
  rfl

/-- Witness for `published_roundtrip_canonical` at a concrete canonical
timestamp text. -/
theorem published_roundtrip_canonical_witness :
    (DateT.Decode "2024-01-01T00:00:00.000Z").map DateT.Encode =
      some "2024-01-01T00:00:00.000Z" :=
  published_roundtrip_canonical "2024-01-01T00:00:00.000Z"
    ⟨2024, 1, 1, 0, 0, 0, 0⟩ (by decide) (by decide)

/-! ### The `reading-time` npm package

`readingTime(content)` returns `{ minutes, time, words }` where `words` is
the number of whitespace-delimited words of the text (word bounds are the
characters of `' \n\r\t'`; the package's extra per-character handling of CJK
code points is irrelevant to this repository's Latin posts and is omitted),
`minutes = words / wordsPerMinute` with the default `wordsPerMinute = 200`,
and `time = Math.round(minutes * 60 * 1000)` — a value in milliseconds.
The script stores `readingTime(content).time` in the output record. -/

def isAnsiWordBound (c : Char) : Bool :=
  c = ' ' || c = '\n' || c = '\r' || c = '\t'

/-- Counts maximal runs of non-word-bound characters.  The flag records
whether the previous character was inside a word. -/
def countWordsAux : List Char → Bool → Nat
  | [], _ => 0
  | c :: cs, inWord =>
    if isAnsiWordBound c then countWordsAux cs false
    else (if inWord then 0 else 1) + countWordsAux cs true

def countWords (text : String) : Nat := countWordsAux text.toList false

def wordsPerMinute : ℚ := 200

/-- `Math.round`: round half toward positive infinity. -/
def jsRound (q : ℚ) : ℤ := ⌊q + 1 / 2⌋

structure ReadingTimeResult where
  minutes : ℚ
  time : ℤ
  words : Nat
  deriving DecidableEq, Repr

/-- Model of the `reading-time` package's default export. -/
def readingTime (text : String) : ReadingTimeResult :=
  let words := countWords text
  let minutes : ℚ := words / wordsPerMinute
  let time := jsRound (minutes * 60 * 1000)
  ⟨minutes, time, words⟩

theorem jsRound_intCast (n : ℤ) : jsRound (n : ℚ) = n := by
  unfold jsRound
  rw [add_comm, Int.floor_add_int]
  norm_num

/-- The `.time` field always equals `300 · words` (milliseconds at 200 wpm). -/
theorem readingTime_time_eq (text : String) :
    (readingTime text).time = 300 * (countWords text : ℤ) := by
  unfold readingTime
  have h : ((countWords text : ℚ) / wordsPerMinute) * 60 * 1000 =
      ((300 * (countWords text : ℤ) : ℤ) : ℚ) := by
    unfold wordsPerMinute
    push_cast
    ring
  simp only [h, jsRound_intCast]

/-- A body of exactly 400 words, each being the single letter `a`. -/
def fourHundredWordBody : String :=
  String.intercalate " " (List.replicate 400 "a")

set_option maxRecDepth 40000 in
/-- C2 (counterexample): for a 400-word body the script's stored
`readingTime` value is `120000` (milliseconds), which is not a value of
"about 1.3–2" as the minutes reading of the claim asserts. -/
theorem readingTime_units_counterexample :
    (readingTime fourHundredWordBody).words = 400 ∧
    (readingTime fourHundredWordBody).time = 120000 ∧
    ¬((4 / 3 : ℚ) ≤ 120000 ∧ (120000 : ℚ) ≤ 2) := by
  have hw : countWords fourHundredWordBody = 400 := by decide
  refine ⟨hw, ?_, ?_⟩
  · rw [readingTime_time_eq, hw]
    norm_num
  · intro h
    have := h.2
    norm_num at this

/-- C2 (amended): the stored `readingTime` value is the body's word count
divided by the package's default average reading speed of 200 words per
minute, expressed in milliseconds: `time = round(words / 200 · 60000)
= 300 · words`, i.e. `time` is the minutes estimate times 60000. -/
theorem readingTime_milliseconds (text : String) :
    (readingTime text).time = 300 * (countWords text : ℤ) ∧
    ((readingTime text).time : ℚ) = 60000 * (readingTime text).minutes ∧
    (readingTime text).minutes = (countWords text : ℚ) / 200 := by
  refine ⟨readingTime_time_eq text, ?_, ?_⟩
  · rw [readingTime_time_eq text]
    show ((300 * (countWords text : ℤ) : ℤ) : ℚ) =
      60000 * ((countWords text : ℚ) / wordsPerMinute)
    unfold wordsPerMinute
    push_cast
    ring
  · rfl

/-- C3 (counterexample): for a body with zero words the computed
`readingTime` is `0`, which is not positive. -/
theorem readingTime_zero_words_counterexample :
    countWords "" = 0 ∧ (readingTime "").time = 0 ∧ ¬(0 < (readingTime "").time) := by
  have hw : countWords "" = 0 := by decide
  have ht : (readingTime "").time = 0 := by rw [readingTime_time_eq, hw]; norm_num
  exact ⟨hw, ht, by omega⟩

/-- C3 (amended): the computed `readingTime` is nonnegative, is zero exactly
when the body has zero words (so it is positive for every nonempty word
count, but not for a zero-word body), and strictly increases as the body's
word count increases, all other inputs held equal. -/
theorem readingTime_nonneg_strictMono (s t : String) :
    0 ≤ (readingTime s).time ∧
    ((readingTime s).time = 0 ↔ countWords s = 0) ∧
    (countWords s < countWords t → (readingTime s).time < (readingTime t).time) := by
  rw [readingTime_time_eq s, readingTime_time_eq t]
  refine ⟨by positivity, ⟨fun h => by omega, fun h => by omega⟩, fun h => by
    have : (countWords s : ℤ) < (countWords t : ℤ) := by exact_mod_cast h
    omega⟩

/-- Witness for `readingTime_nonneg_strictMono` at concrete bodies with one
and two words. -/
theorem readingTime_nonneg_strictMono_witness :
    0 ≤ (readingTime "a").time ∧ (readingTime "a").time < (readingTime "a b").time :=
  ⟨(readingTime_nonneg_strictMono "a" "a b").1,
    (readingTime_nonneg_strictMono "a" "a b").2.2 (by decide)⟩

/-! ### JSON / YAML values and frontmatter records

`gray-matter` splits each `index.md` into a parsed YAML metadata object and
the remaining body text.  YAML parsing itself is outside the model: a post
file is represented by its parse result, a `PostFile` holding the
frontmatter object (`FmData`, a key/value list in document order — JS object
keys are unique and ordered) and the body string.  An unquoted YAML date is
parsed by `gray-matter` into a JS `Date`, modelled by the `date`
constructor. -/

inductive JValue where
  | str : String → JValue
  | num : ℚ → JValue
  | bool : Bool → JValue
  | null : JValue
  | date : Option JSDate → JValue
  | arr : List JValue → JValue
  | obj : List (String × JValue) → JValue

abbrev FmData := List (String × JValue)

/-- JS property read `o[key]`. -/
def getKey (data : FmData) (key : String) : Option JValue :=
  (data.find? fun kv => kv.1 == key).map fun kv => kv.2

/-- JS property assignment `o[key] = v`: an existing key keeps its position
and receives the new value; a new key is appended at the end. -/
def setKey (data : FmData) (key : String) (v : JValue) : FmData :=
  if data.any fun kv => kv.1 == key then
    data.map fun kv => if kv.1 == key then (kv.1, v) else kv
  else data ++ [(key, v)]

/-- JS object spread `{...acc, ...entries}` carried out entry by entry. -/
def objAssign (acc : FmData) (entries : FmData) : FmData :=
  entries.foldl (fun a kv => setKey a kv.1 kv.2) acc

/-! ### The TypeBox schema and `Value.Decode`

`schema = Type.Object({title: String, description: String, published: DateT,
tags: Array(String)})`.  `Value.Decode` first checks the value against the
schema (unknown extra keys are allowed — `additionalProperties` is not set)
and throws `TransformDecodeCheckError` carrying the offending value and the
first `ValueError` (properties are visited in schema definition order); on
success it applies the `Decode` transforms to the schema's keys, leaving
unknown keys untouched.  Error paths for invalid `tags` elements are
reported here at `/tags` rather than at the element index; no claim
distinguishes the two. -/

structure ValueErr where
  path : String
  message : String
  deriving DecidableEq, Repr

def isStr : JValue → Bool
  | .str _ => true
  | _ => false

def checkString (path : String) (v : JValue) : Option ValueErr :=
  match v with
  | .str _ => none
  | _ => some ⟨path, "Expected string"⟩

def checkStringArray (path : String) (v : JValue) : Option ValueErr :=
  match v with
  | .arr vs => if vs.all isStr then none else some ⟨path, "Expected string"⟩
  | _ => some ⟨path, "Expected array"⟩

/-- `Type.Date()` of the later revision: `value instanceof Date` (an Invalid
Date is still a `Date` instance). -/
def checkDateValue (path : String) (v : JValue) : Option ValueErr :=
  match v with
  | .date _ => none
  | _ => some ⟨path, "Expected Date"⟩

def checkRequired (data : FmData) (key : String)
    (check : String → JValue → Option ValueErr) : Option ValueErr :=
  match getKey data key with
  | none => some ⟨"/" ++ key, "Required property"⟩
  | some v => check ("/" ++ key) v

/-- First check failure of the frontmatter against `schema`, if any. -/
def checkSchema (data : FmData) : Option ValueErr :=
  match checkRequired data "title" checkString with
  | some e => some e
  | none =>
    match checkRequired data "description" checkString with
    | some e => some e
    | none =>
      match checkRequired data "published" checkString with
      | some e => some e
      | none => checkRequired data "tags" checkStringArray

/-- First check failure against the later revision's schema, where
`published` is `Type.Date()`. -/
def checkSchema2 (data : FmData) : Option ValueErr :=
  match checkRequired data "title" checkString with
  | some e => some e
  | none =>
    match checkRequired data "description" checkString with
    | some e => some e
    | none =>
      match checkRequired data "published" checkDateValue with
      | some e => some e
      | none => checkRequired data "tags" checkStringArray

/-- The `Decode` transform for one property: only `published` has a
transform (`value => new Date(value)`). -/
def decodeValue (key : String) (v : JValue) : JValue :=
  if key == "published" then
    match v with
    | .str s => .date (DateT.Decode s)
    | _ => v
  else v

/-- TypeBox `TransformDecode` over the checked object: schema keys are
transformed, unknown keys pass through unchanged, order is preserved. -/
def TransformDecode (data : FmData) : FmData :=
  data.map fun kv => (kv.1, decodeValue kv.1 kv.2)

inductive BuildError where
  /-- `fs.readFile` rejection; carries the path of the unreadable file. -/
  | readError : String → BuildError
  /-- `TransformDecodeCheckError`: the offending frontmatter value and the
  first `ValueError`.  Note it carries no post/directory identity. -/
  | schemaError : FmData → ValueErr → BuildError

/-- `Value.Decode(schema, data)` of the original revision. -/
def ValueDecode (data : FmData) : Except BuildError FmData :=
  match checkSchema data with
  | some e => .error (.schemaError data e)
  | none => .ok (TransformDecode data)

/-- `Value.Decode(schema, data)` of the later revision: same check shape,
no transforms, so the checked value is returned unchanged. -/
def ValueDecode2 (data : FmData) : Except BuildError FmData :=
  match checkSchema2 data with
  | some e => .error (.schemaError data e)
  | none => .ok data

/-! ### The file pipeline -/

/-- One entry of `fs.readdir(postsDir, { withFileTypes: true })`. -/
structure DirEnt where
  name : String
  isDirectory : Bool
  deriving DecidableEq, Repr

structure PostFile where
  data : FmData
  content : String

/-- The posts root as the script observes it: its path, its directory
listing, and for each subdirectory name the `gray-matter` parse of
`postsDir/<dir>/index.md` (`none` models a missing/unreadable file). -/
structure Env where
  postsDir : String
  listing : List DirEnt
  readFile : String → Option PostFile

def postDirectories (env : Env) : List String :=
  (env.listing.filter fun x => x.isDirectory).map fun x => x.name

def readPost (env : Env) (dir : String) : Except BuildError PostFile :=
  match env.readFile dir with
  | some f => .ok f
  | none => .error (.readError (env.postsDir ++ "/" ++ dir ++ "/index.md"))

/-- Sequential effectful map: JS `Array.map` whose callback may throw (and
`Promise.all`, whose rejection is the first failed read): the first failure
aborts the whole run. -/
def mapExcept {α β : Type} (f : α → Except BuildError β) :
    List α → Except BuildError (List β)
  | [] => .ok []
  | a :: as =>
    match f a with
    | .error e => .error e
    | .ok b =>
      match mapExcept f as with
      | .error e => .error e
      | .ok bs => .ok (b :: bs)

def postMarkdownFiles (env : Env) : Except BuildError (List PostFile) :=
  mapExcept (readPost env) (postDirectories env)

/-- One output record of the original revision:
`{...Value.Decode(schema, data), readingTime: readingTime(content).time}`. -/
def mkPost (file : PostFile) : Except BuildError FmData :=
  (ValueDecode file.data).map fun r =>
    setKey r "readingTime" (.num ((readingTime file.content).time : ℚ))

/-- One output record of the later revision:
`{name, ...Value.Decode(schema, data), readingTime: ...}` where `name` is
the post's directory name. -/
def mkPost2 (name : String) (file : PostFile) : Except BuildError FmData :=
  (ValueDecode2 file.data).map fun r =>
    setKey (objAssign [("name", JValue.str name)] r) "readingTime"
      (.num ((readingTime file.content).time : ℚ))

def posts (env : Env) : Except BuildError (List FmData) :=
  match postMarkdownFiles env with
  | .error e => .error e
  | .ok files => mapExcept mkPost files

/-! ### `JSON.stringify(posts, null, 2)` and the final write -/

def quoteJSON (s : String) : String := "\"" ++ s ++ "\""

def indentStr (n : Nat) : String := String.mk (List.replicate (2 * n) ' ')

def wrapItems (lvl : Nat) (openB closeB : String) (items : List String) : String :=
  match items with
  | [] => openB ++ closeB
  | _ =>
    openB ++ "\n" ++ String.intercalate ",\n" (items.map fun it => indentStr (lvl + 1) ++ it)
      ++ "\n" ++ indentStr lvl ++ closeB

mutual

/-- `JSON.stringify` with 2-space indentation.  String escaping is elided
(no claim depends on it); an Invalid Date serializes as `null` (JS
`Date.prototype.toJSON` returns null for non-finite time values). -/
def stringifyValue : Nat → JValue → String
  | _, .str s => quoteJSON s
  | _, .num q => toString q
  | _, .bool b => cond b "true" "false"
  | _, .null => "null"
  | _, .date (some d) => quoteJSON (DateT.Encode d)
  | _, .date none => "null"
  | lvl, .arr vs => wrapItems lvl "[" "]" (stringifyList (lvl + 1) vs)
  | lvl, .obj kvs => wrapItems lvl "\x7b" "\x7d" (stringifyPairs (lvl + 1) kvs)

def stringifyList : Nat → List JValue → List String
  | _, [] => []
  | lvl, v :: vs => stringifyValue lvl v :: stringifyList lvl vs

def stringifyPairs : Nat → List (String × JValue) → List String
  | _, [] => []
  | lvl, (k, v) :: kvs =>
    (quoteJSON k ++ ": " ++ stringifyValue lvl v) :: stringifyPairs lvl kvs

end

def stringifyPosts (ps : List FmData) : String :=
  wrapItems 0 "[" "]" (stringifyList 1 (ps.map JValue.obj))

def outputPath (env : Env) : String := env.postsDir ++ "/index.json"

/-- The whole run: compute `posts`, then `Bun.write` the serialized index to
`postsDir/index.json`.  `prior` is the output file's previous state (path
and content); a thrown error propagates before the write is reached, so the
previous state persists. -/
def buildIndex (env : Env) (prior : Option (String × String)) :
    Except BuildError Unit × Option (String × String) :=
  match posts env with
  | .error e => (.error e, prior)
  | .ok ps => (.ok (), some (outputPath env, stringifyPosts ps))

/-! ### Supporting lemmas -/

theorem mapExcept_ok_length {α β : Type} (f : α → Except BuildError β) :
    ∀ {l : List α} {res : List β}, mapExcept f l = .ok res → res.length = l.length := by
  intro l
  induction l with
  | nil => intro res h; simp [mapExcept] at h; simp [← h]
  | cons a as ih =>
    intro res h
    simp only [mapExcept] at h
    cases hfa : f a with
    | error e => rw [hfa] at h; simp at h
    | ok b =>
      rw [hfa] at h
      cases hrest : mapExcept f as with
      | error e => rw [hrest] at h; simp at h
      | ok bs =>
        rw [hrest] at h
        simp at h
        subst h
        simp [ih hrest]

theorem mapExcept_ok_of_forall {α β : Type} (f : α → Except BuildError β) (l : List α)
    (h : ∀ a ∈ l, ∃ b, f a = .ok b) : ∃ res, mapExcept f l = .ok res := by
  induction l with
  | nil => exact ⟨[], rfl⟩
  | cons a as ih =>
    obtain ⟨b, hb⟩ := h a (by simp)
    obtain ⟨bs, hbs⟩ := ih fun x hx => h x (by simp [hx])
    exact ⟨b :: bs, by simp [mapExcept, hb, hbs]⟩

theorem mapExcept_mem_ok {α β : Type} (f : α → Except BuildError β) :
    ∀ {l : List α} {res : List β}, mapExcept f l = .ok res →
      ∀ {a b}, a ∈ l → f a = .ok b → b ∈ res := by
  intro l
  induction l with
  | nil => intro res _ a b ha; simp at ha
  | cons x xs ih =>
    intro res h a b ha hb
    simp only [mapExcept] at h
    cases hfx : f x with
    | error e => rw [hfx] at h; simp at h
    | ok c =>
      rw [hfx] at h
      cases hrest : mapExcept f xs with
      | error e => rw [hrest] at h; simp at h
      | ok cs =>
        rw [hrest] at h
        simp at h
        subst h
        rcases List.mem_cons.mp ha with rfl | hmem
        · rw [hfx] at hb
          simp at hb
          simp [hb]
        · simp [ih hrest hmem hb]

theorem mapExcept_exists_error {α β : Type} (f : α → Except BuildError β) :
    ∀ {l : List α} {a : α} {e0 : BuildError}, a ∈ l → f a = .error e0 →
      ∃ e, mapExcept f l = .error e := by
  intro l
  induction l with
  | nil => intro a e0 ha; simp at ha
  | cons x xs ih =>
    intro a e0 ha he
    cases hfx : f x with
    | error e1 => exact ⟨e1, by simp [mapExcept, hfx]⟩
    | ok b =>
      have hmem : a ∈ xs := by
        rcases List.mem_cons.mp ha with rfl | hmem
        · rw [hfx] at he; simp at he
        · exact hmem
      obtain ⟨e, hrest⟩ := ih hmem he
      exact ⟨e, by simp [mapExcept, hfx, hrest]⟩

theorem mapExcept_error_mem {α β : Type} (f : α → Except BuildError β) :
    ∀ {l : List α} {e : BuildError}, mapExcept f l = .error e →
      ∃ a ∈ l, f a = .error e := by
  intro l
  induction l with
  | nil => intro e h; simp [mapExcept] at h
  | cons x xs ih =>
    intro e h
    simp only [mapExcept] at h
    cases hfx : f x with
    | error e1 =>
      rw [hfx] at h
      simp at h
      exact ⟨x, by simp, by rw [hfx, h]⟩
    | ok b =>
      rw [hfx] at h
      cases hrest : mapExcept f xs with
      | error e1 =>
        rw [hrest] at h
        simp at h
        subst h
        obtain ⟨a, ha, hfa⟩ := ih hrest
        exact ⟨a, by simp [ha], hfa⟩
      | ok bs => rw [hrest] at h; simp at h

theorem mapExcept_ok_get {α β : Type} (f : α → Except BuildError β) :
    ∀ {l : List α} {res : List β}, mapExcept f l = .ok res →
      ∀ i (h1 : i < l.length) (h2 : i < res.length),
        f (l.get ⟨i, h1⟩) = .ok (res.get ⟨i, h2⟩) := by
  intro l
  induction l with
  | nil => intro res _ i h1; simp at h1
  | cons x xs ih =>
    intro res h i h1 h2
    simp only [mapExcept] at h
    cases hfx : f x with
    | error e => rw [hfx] at h; simp at h
    | ok b =>
      rw [hfx] at h
      cases hrest : mapExcept f xs with
      | error e => rw [hrest] at h; simp at h
      | ok bs =>
        rw [hrest] at h
        simp at h
        subst h
        cases i with
        | zero => simpa using hfx
        | succ n =>
          simp only [List.get_cons_succ]
          exact ih hrest n (by simpa using h1) (by simpa using h2)

theorem getKey_cons (k0 : String) (v0 : JValue) (rest : FmData) (k : String) :
    getKey ((k0, v0) :: rest) k = if k0 == k then some v0 else getKey rest k := by
  by_cases h : (k0 == k) = true
  · simp [getKey, List.find?, h]
  · simp [getKey, List.find?, h]

theorem getKey_eq_none (data : FmData) (k : String) (h : k ∉ data.map Prod.fst) :
    getKey data k = none := by
  induction data with
  | nil => rfl
  | cons kv rest ih =>
    obtain ⟨k0, v0⟩ := kv
    simp at h
    rw [getKey_cons]
    rw [if_neg (by simpa using fun he => h.1 (by simp [← he]))]
    exact ih (by simp [h.2])

theorem getKey_setKey_self (data : FmData) (k : String) (v : JValue) :
    getKey (setKey data k v) k = some v := by
  unfold setKey
  by_cases hany : (data.any fun kv => kv.1 == k) = true
  · rw [if_pos hany]
    induction data with
    | nil => simp at hany
    | cons kv rest ih =>
      obtain ⟨k0, v0⟩ := kv
      rw [List.map_cons]
      by_cases h0 : (k0 == k) = true
      · rw [show (if ((k0, v0).1 == k) = true then ((k0, v0).1, v) else (k0, v0))
            = (k0, v) by simp [h0]]
        rw [getKey_cons, if_pos h0]
      · rw [show (if ((k0, v0).1 == k) = true then ((k0, v0).1, v) else (k0, v0))
            = (k0, v0) by simp [h0]]
        rw [getKey_cons, if_neg h0]
        apply ih
        simp only [List.any_cons] at hany
        simpa [h0] using hany
  · rw [if_neg hany]
    have hf : data.find? (fun kv => kv.1 == k) = none := by
      rw [List.find?_eq_none]
      intro x hx hpx
      exact hany (List.any_eq_true.mpr ⟨x, hx, hpx⟩)
    unfold getKey
    rw [List.find?_append, hf, Option.none_or]
    simp [List.find?]

theorem getKey_mapReplace (data : FmData) (k' : String) (v : JValue) (k : String)
    (h : k' ≠ k) :
    getKey (data.map fun kv => if kv.1 == k' then (kv.1, v) else kv) k = getKey data k := by
  induction data with
  | nil => rfl
  | cons kv rest ih =>
    obtain ⟨k0, v0⟩ := kv
    rw [List.map_cons]
    by_cases h0 : (k0 == k') = true
    · have hk0 : k0 = k' := by simpa using h0
      have h0k : (k0 == k) = false := by
        subst hk0
        simpa using h
      rw [show (if ((k0, v0).1 == k') = true then ((k0, v0).1, v) else (k0, v0))
          = (k0, v) by simp [h0]]
      rw [getKey_cons, if_neg (by simp [h0k]), getKey_cons, if_neg (by simp [h0k])]
      exact ih
    · rw [show (if ((k0, v0).1 == k') = true then ((k0, v0).1, v) else (k0, v0))
          = (k0, v0) by simp [h0]]
      rw [getKey_cons, getKey_cons]
      by_cases hk0 : (k0 == k) = true
      · rw [if_pos hk0, if_pos hk0]
      · rw [if_neg hk0, if_neg hk0]
        exact ih

theorem getKey_setKey_ne (data : FmData) (k' : String) (v : JValue) (k : String)
    (h : k' ≠ k) : getKey (setKey data k' v) k = getKey data k := by
  unfold setKey
  by_cases hany : (data.any fun kv => kv.1 == k') = true
  · rw [if_pos hany]
    exact getKey_mapReplace data k' v k h
  · rw [if_neg hany]
    unfold getKey
    rw [List.find?_append]
    have h1 : List.find? (fun kv => kv.1 == k) [(k', v)] = none := by
      have hke : (k' == k) = false := by simpa using h
      simp [List.find?, hke]
    rw [h1, Option.or_none]

theorem getKey_objAssign (entries : FmData) (acc : FmData) (k : String)
    (hnodup : (entries.map Prod.fst).Nodup) :
    getKey (objAssign acc entries) k =
      match getKey entries k with
      | some v => some v
      | none => getKey acc k := by
  induction entries generalizing acc with
  | nil => simp [objAssign, getKey, List.find?]
  | cons kv rest ih =>
    obtain ⟨k0, v0⟩ := kv
    rw [List.map_cons, List.nodup_cons] at hnodup
    show getKey (objAssign (setKey acc k0 v0) rest) k = _
    rw [ih (setKey acc k0 v0) hnodup.2, getKey_cons]
    by_cases h0 : (k0 == k) = true
    · have hk0 : k0 = k := by simpa using h0
      have hrest : getKey rest k = none := by
        apply getKey_eq_none
        rw [← hk0]
        exact hnodup.1
      rw [if_pos h0, hrest, hk0]
      simp [getKey_setKey_self]
    · rw [if_neg h0]
      cases hr : getKey rest k with
      | some v => simp
      | none =>
        simp only
        exact getKey_setKey_ne acc k0 v0 k (by simpa using h0)

theorem getKey_TransformDecode (data : FmData) (k : String) (h : k ≠ "published") :
    getKey (TransformDecode data) k = getKey data k := by
  induction data with
  | nil => rfl
  | cons kv rest ih =>
    obtain ⟨k0, v0⟩ := kv
    unfold TransformDecode at ih ⊢
    rw [List.map_cons]
    show getKey ((k0, decodeValue k0 v0) :: _) k = _
    rw [getKey_cons, getKey_cons]
    by_cases h0 : (k0 == k) = true
    · have hk0 : k0 = k := by simpa using h0
      have : decodeValue k0 v0 = v0 := by
        unfold decodeValue
        rw [if_neg]
        simp [hk0]
        exact h
      rw [if_pos h0, if_pos h0, this]
    · rw [if_neg h0, if_neg h0]
      exact ih

/-! ### Claim theorems on the pipeline -/

/-- C5: the output index has exactly one record per immediate subdirectory
of the posts root, and non-directory entries of the listing are ignored:
they contribute no output element and cause no error (the run behaves
exactly as if they were absent from the listing). -/
theorem posts_one_per_directory (env : Env) :
    posts env = posts { env with listing := env.listing.filter fun x => x.isDirectory } ∧
    ∀ ps, posts env = .ok ps →
      ps.length = (env.listing.filter fun x => x.isDirectory).length := by
  constructor
  · have hdirs : postDirectories { env with listing := env.listing.filter fun x => x.isDirectory }
        = postDirectories env := by
      simp [postDirectories, List.filter_filter]
    unfold posts postMarkdownFiles
    rw [hdirs]
    rfl
  · intro ps hps
    unfold posts at hps
    cases hf : postMarkdownFiles env with
    | error e => rw [hf] at hps; simp at hps
    | ok files =>
      rw [hf] at hps
      have h1 := mapExcept_ok_length mkPost hps
      have h2 := mapExcept_ok_length (readPost env) hf
      unfold postDirectories at h2
      simp at h2
      omega

/-- A well-formed single-post root used as a concrete witness. -/
def goodFrontmatter : FmData :=
  [("title", JValue.str "Hello"), ("description", JValue.str "World"),
   ("published", JValue.str "2024-01-01T00:00:00.000Z"),
   ("tags", JValue.arr [JValue.str "CSS"])]

def goodFile : PostFile := ⟨goodFrontmatter, "hello world"⟩

def envOnePost : Env :=
  ⟨"/posts", [⟨"hello", true⟩, ⟨"index.json", false⟩],
    fun d => if d = "hello" then some goodFile else none⟩

/-- The single decoded record of `envOnePost`. -/
def onePostRecord : FmData :=
  setKey (TransformDecode goodFrontmatter) "readingTime"
    (JValue.num ((readingTime "hello world").time : ℚ))

/-- Witness for `posts_one_per_directory` on a concrete root with one post
directory and one non-directory entry. -/
theorem posts_one_per_directory_witness :
    posts envOnePost =
      posts { envOnePost with listing := envOnePost.listing.filter fun x => x.isDirectory } ∧
    [onePostRecord].length = (envOnePost.listing.filter fun x => x.isDirectory).length :=
  ⟨(posts_one_per_directory envOnePost).1,
    (posts_one_per_directory envOnePost).2 [onePostRecord] (by rfl)⟩

/-- C6: if every post file is readable but some post's frontmatter fails the
required-field presence/type check, the run fails with a schema validation
error (`TransformDecodeCheckError`) and the output file is not written: the
previous file state persists unchanged. -/
theorem schema_error_aborts_without_write (env : Env) (prior : Option (String × String))
    (hreads : ∀ d ∈ postDirectories env, (env.readFile d).isSome = true)
    (hbad : ∃ d ∈ postDirectories env,
      ((env.readFile d).any fun f => (checkSchema f.data).isSome) = true) :
    (∃ v e, (buildIndex env prior).1 = .error (.schemaError v e)) ∧
    (buildIndex env prior).2 = prior := by
  obtain ⟨files, hfiles⟩ := mapExcept_ok_of_forall (readPost env) (postDirectories env)
    (fun d hd => by
      have hs := hreads d hd
      cases hr : env.readFile d with
      | none => rw [hr] at hs; simp at hs
      | some f => exact ⟨f, by simp [readPost, hr]⟩)
  obtain ⟨d, hd, hany⟩ := hbad
  obtain ⟨f, hf, hcheck⟩ : ∃ f, env.readFile d = some f ∧ (checkSchema f.data).isSome = true := by
    cases hr : env.readFile d with
    | none => rw [hr] at hany; simp [Option.any] at hany
    | some f => rw [hr] at hany; exact ⟨f, rfl, by simpa [Option.any] using hany⟩
  obtain ⟨e0, he0⟩ := Option.isSome_iff_exists.mp hcheck
  have hmem : f ∈ files :=
    mapExcept_mem_ok (readPost env) hfiles hd (by simp [readPost, hf])
  have hmkerr : mkPost f = .error (.schemaError f.data e0) := by
    simp [mkPost, ValueDecode, he0, Except.map]
  obtain ⟨e, he⟩ := mapExcept_exists_error mkPost hmem hmkerr
  have hposts : posts env = .error e := by
    unfold posts postMarkdownFiles
    rw [hfiles]
    exact he
  obtain ⟨a, _, ha⟩ := mapExcept_error_mem mkPost he
  have hshape : ∃ v err, e = .schemaError v err := by
    unfold mkPost ValueDecode at ha
    cases hc : checkSchema a.data with
    | some e1 =>
      rw [hc] at ha
      simp [Except.map] at ha
      exact ⟨a.data, e1, ha.symm⟩
    | none => rw [hc] at ha; simp [Except.map] at ha
  obtain ⟨v, err, rfl⟩ := hshape
  constructor
  · exact ⟨v, err, by simp [buildIndex, hposts]⟩
  · simp [buildIndex, hposts]

/-- A frontmatter record missing the required `tags` field. -/
def badFrontmatter : FmData :=
  [("title", JValue.str "Hello"), ("description", JValue.str "World"),
   ("published", JValue.str "2024-01-01T00:00:00.000Z")]

def badFile : PostFile := ⟨badFrontmatter, "body"⟩

def envBadPost : Env :=
  ⟨"/posts", [⟨"broken", true⟩], fun d => if d = "broken" then some badFile else none⟩

/-- Witness for `schema_error_aborts_without_write` on a concrete root whose
only post lacks `tags`, starting from a previously written output file. -/
theorem schema_error_aborts_without_write_witness :
    (∃ v e, (buildIndex envBadPost (some ("/posts/index.json", "[]"))).1
        = .error (.schemaError v e)) ∧
    (buildIndex envBadPost (some ("/posts/index.json", "[]"))).2
        = some ("/posts/index.json", "[]") :=
  schema_error_aborts_without_write envBadPost (some ("/posts/index.json", "[]"))
    (by decide) (by decide)

/-- C8: a posts root with zero post subdirectories is not an error: the run
succeeds and writes the empty JSON array `[]` to `postsRoot/index.json`. -/
theorem empty_posts_root_writes_empty_array (env : Env) (prior : Option (String × String))
    (h : env.listing.filter (fun x => x.isDirectory) = []) :
    buildIndex env prior = (.ok (), some (env.postsDir ++ "/index.json", "[]")) := by
  have hdirs : postDirectories env = [] := by simp [postDirectories, h]
  have hposts : posts env = .ok [] := by
    unfold posts postMarkdownFiles
    rw [hdirs]
    rfl
  simp [buildIndex, hposts, outputPath]
  rfl

def envEmptyRoot : Env := ⟨"/posts", [⟨"notes.txt", false⟩], fun _ => none⟩

/-- Witness for `empty_posts_root_writes_empty_array` on a concrete root
with no subdirectories. -/
theorem empty_posts_root_writes_empty_array_witness :
    buildIndex envEmptyRoot none = (.ok (), some ("/posts" ++ "/index.json", "[]")) :=
  empty_posts_root_writes_empty_array envEmptyRoot none (by rfl)

/-! ### Claim C7: what the validation error identifies -/

def envSwapA : Env :=
  ⟨"/posts", [⟨"alpha", true⟩, ⟨"beta", true⟩],
    fun d => if d = "alpha" then some badFile
      else if d = "beta" then some goodFile else none⟩

def envSwapB : Env :=
  ⟨"/posts", [⟨"alpha", true⟩, ⟨"beta", true⟩],
    fun d => if d = "alpha" then some goodFile
      else if d = "beta" then some badFile else none⟩

/-- C7 (counterexample): the validation error does not identify the
offending post.  Two roots that differ only in *which* directory holds the
invalid frontmatter (`alpha` in `envSwapA`, `beta` in `envSwapB`) produce
identical errors, so the error cannot name the offending post; no directory
name appears in the error at all. -/
theorem schema_error_no_post_identity_counterexample :
    posts envSwapA = .error (.schemaError badFrontmatter ⟨"/tags", "Required property"⟩) ∧
    posts envSwapB = .error (.schemaError badFrontmatter ⟨"/tags", "Required property"⟩) ∧
    envSwapA.readFile "alpha" ≠ envSwapB.readFile "alpha" := by
  refine ⟨rfl, rfl, ?_⟩
  intro h
  simp [envSwapA, envSwapB, badFile, goodFile, badFrontmatter, goodFrontmatter] at h

/-- C7 (amended): when a post's frontmatter fails the required-field
presence/type checks, the thrown `TransformDecodeCheckError` identifies the
offending *field* (it carries the first failing `ValueError`, whose path
names the field) and carries the offending frontmatter value, but it does
not identify the offending post: validation receives only the parsed
frontmatter, never the post's directory name, so the error is a function of
the frontmatter alone. -/
theorem schema_error_field_only (f : PostFile) (e : ValueErr)
    (h : checkSchema f.data = some e) :
    mkPost f = .error (.schemaError f.data e) := by
  simp [mkPost, ValueDecode, h, Except.map]

/-- Witness for `schema_error_field_only`: the post missing `tags` yields
the error whose `ValueError` path is `/tags`. -/
theorem schema_error_field_only_witness :
    mkPost badFile = .error (.schemaError badFrontmatter ⟨"/tags", "Required property"⟩) :=
  schema_error_field_only badFile ⟨"/tags", "Required property"⟩ (by rfl)

/-! ### Claim C10: extra frontmatter keys are not stripped -/

/-- C10: unrecognized extra frontmatter keys (beyond the schema's `title`,
`description`, `published`, `tags`, and distinct from the computed
`readingTime`) survive schema decoding and the spread into the output
record: the output record still maps the extra key to its frontmatter
value. -/
theorem extra_keys_retained (f : PostFile) (k : String) (v : JValue) (r : FmData)
    (hk : getKey f.data k = some v)
    (hnot : k ∉ ["title", "description", "published", "tags", "readingTime"])
    (hok : mkPost f = .ok r) :
    getKey r k = some v := by
  simp at hnot
  unfold mkPost ValueDecode at hok
  cases hc : checkSchema f.data with
  | some e => rw [hc] at hok; simp [Except.map] at hok
  | none =>
    rw [hc] at hok
    simp [Except.map] at hok
    rw [← hok]
    rw [getKey_setKey_ne _ _ _ _ (fun he => hnot.2.2.2.2 he.symm)]
    rw [getKey_TransformDecode _ _ hnot.2.2.1]
    exact hk

def extraKeyFrontmatter : FmData :=
  [("title", JValue.str "Hello"), ("description", JValue.str "World"),
   ("published", JValue.str "2024-01-01T00:00:00.000Z"),
   ("tags", JValue.arr [JValue.str "CSS"]), ("author", JValue.str "me")]

def extraKeyFile : PostFile := ⟨extraKeyFrontmatter, "hello world"⟩

def extraKeyRecord : FmData :=
  setKey (TransformDecode extraKeyFrontmatter) "readingTime"
    (JValue.num ((readingTime "hello world").time : ℚ))

/-- Witness for `extra_keys_retained`: the unrecognized `author` key is
still present, with its value, in the emitted record. -/
theorem extra_keys_retained_witness :
    mkPost extraKeyFile = .ok extraKeyRecord ∧
    getKey extraKeyRecord "author" = some (JValue.str "me") :=
  ⟨rfl, extra_keys_retained extraKeyFile "author" (JValue.str "me") extraKeyRecord
    (by rfl) (by decide) (by rfl)⟩

/-! ### Claim C9: the slug is set before the spread of the decoded record -/

/-- C9: in the later revision, the output record is the literal
`{name, ...Value.Decode(schema, data), readingTime: ...}`, so `name` is
assigned *before* the decoded frontmatter is spread.  Hence, whenever the
frontmatter itself carries a `name` key (extra keys survive decoding), the
spread overwrites the slug: the output's `name` is the frontmatter's value.
The slug is only guaranteed when the frontmatter has no `name` key.
(Frontmatter keys are unique, as YAML/JS object keys are.) -/
theorem slug_overridden_by_frontmatter_name (dirName : String) (f : PostFile) (r : FmData)
    (hnodup : (f.data.map Prod.fst).Nodup)
    (hok : mkPost2 dirName f = .ok r) :
    (∀ v, getKey f.data "name" = some v → getKey r "name" = some v) ∧
    (getKey f.data "name" = none → getKey r "name" = some (JValue.str dirName)) := by
  unfold mkPost2 ValueDecode2 at hok
  cases hc : checkSchema2 f.data with
  | some e => rw [hc] at hok; simp [Except.map] at hok
  | none =>
    rw [hc] at hok
    simp [Except.map] at hok
    have hbase : getKey r "name" =
        match getKey f.data "name" with
        | some v => some v
        | none => getKey [("name", JValue.str dirName)] "name" := by
      rw [← hok]
      rw [getKey_setKey_ne _ _ _ _ (by decide)]
      exact getKey_objAssign f.data [("name", JValue.str dirName)] "name" hnodup
    constructor
    · intro v hv
      rw [hbase, hv]
    · intro hnone
      rw [hbase, hnone]
      rfl

def namedFrontmatter : FmData :=
  [("title", JValue.str "Hello"), ("description", JValue.str "World"),
   ("published", JValue.date (some ⟨2024, 1, 1, 0, 0, 0, 0⟩)),
   ("tags", JValue.arr [JValue.str "CSS"]), ("name", JValue.str "custom")]

def plainFrontmatter : FmData :=
  [("title", JValue.str "Hello"), ("description", JValue.str "World"),
   ("published", JValue.date (some ⟨2024, 1, 1, 0, 0, 0, 0⟩)),
   ("tags", JValue.arr [JValue.str "CSS"])]

def namedRecord : FmData :=
  setKey (objAssign [("name", JValue.str "dir-a")] namedFrontmatter) "readingTime"
    (JValue.num ((readingTime "body").time : ℚ))

def plainRecord : FmData :=
  setKey (objAssign [("name", JValue.str "dir-b")] plainFrontmatter) "readingTime"
    (JValue.num ((readingTime "body").time : ℚ))

/-- Witness for `slug_overridden_by_frontmatter_name`: with a frontmatter
`name: custom` the output record's `name` is `custom`, not the directory
name `dir-a`; without a frontmatter `name` the output's `name` is the
directory name `dir-b`. -/
theorem slug_overridden_by_frontmatter_name_witness :
    getKey namedRecord "name" = some (JValue.str "custom") ∧
    getKey plainRecord "name" = some (JValue.str "dir-b") :=
  ⟨(slug_overridden_by_frontmatter_name "dir-a" ⟨namedFrontmatter, "body"⟩ namedRecord
      (by decide) (by rfl)).1 (JValue.str "custom") (by rfl),
    (slug_overridden_by_frontmatter_name "dir-b" ⟨plainFrontmatter, "body"⟩ plainRecord
      (by decide) (by rfl)).2 (by rfl)⟩

/-! ### Claim C4: `Promise.all` and read-completion order

`Promise.all(postDirectories.map(readFile))` starts one read per directory
and places each result at the index of the directory that spawned it; the
reads complete in an arbitrary interleaving.  A completion schedule is a
list of task indices (the order in which reads finish — arbitrary, repeats
allowed); running a schedule fills an initially empty result array slot by
slot.  A schedule in which every task completes yields exactly the in-order
result list, whatever the completion order was. -/

def runSchedule {α : Type} (tasks : List α) (order : List (Fin tasks.length)) :
    List (Option α) :=
  order.foldl (fun st i => st.set i.1 (some (tasks.get i)))
    (List.replicate tasks.length none)

/-- The pending read of each post directory, in enumeration order. -/
def readTasks (env : Env) : List (Except BuildError PostFile) :=
  (postDirectories env).map (readPost env)

def postMarkdownFilesSched (env : Env) (order : List (Fin (readTasks env).length)) :
    List (Option (Except BuildError PostFile)) :=
  runSchedule (readTasks env) order

theorem runSchedule_complete {α : Type} (tasks : List α)
    (order : List (Fin tasks.length)) (h : ∀ i, i ∈ order) :
    runSchedule tasks order = tasks.map some := by
  suffices H : ∀ (order' : List (Fin tasks.length)) (st : List (Option α)),
      st.length = tasks.length →
      (∀ i : Fin tasks.length, i ∈ order' ∨ st[i.1]? = some (some (tasks.get i))) →
      order'.foldl (fun st i => st.set i.1 (some (tasks.get i))) st = tasks.map some by
    unfold runSchedule
    exact H order (List.replicate tasks.length none) (by simp) (fun i => Or.inl (h i))
  intro order'
  induction order' with
  | nil =>
    intro st hlen hinv
    apply List.ext_getElem?
    intro j
    by_cases hj : j < tasks.length
    · have hv : st[j]? = some (some (tasks.get ⟨j, hj⟩)) :=
        (hinv ⟨j, hj⟩).resolve_left (by simp)
      rw [List.foldl_nil, hv, List.getElem?_map, List.getElem?_eq_getElem hj]
      rfl
    · rw [List.foldl_nil, List.getElem?_eq_none (by omega),
        List.getElem?_eq_none (by simp only [List.length_map]; omega)]
  | cons i rest ih =>
    intro st hlen hinv
    rw [List.foldl_cons]
    apply ih
    · simp [hlen]
    · intro i'
      rcases hinv i' with hmem | hval
      · rcases List.mem_cons.mp hmem with heq | hmem'
        · right
          subst heq
          rw [List.getElem?_set, if_pos rfl, if_pos (by rw [hlen]; exact i'.isLt)]
        · exact Or.inl hmem'
      · by_cases hii : i.1 = i'.1
        · right
          rw [List.getElem?_set, if_pos hii, if_pos (by rw [hlen]; exact i.isLt)]
          have he : i = i' := Fin.ext hii
          rw [he]
        · right
          rw [List.getElem?_set, if_neg hii]
          exact hval

/-- C4: the order of the output records equals the enumeration order of the
post subdirectories, independent of read-completion order: (1) any complete
completion schedule of the concurrent reads produces the reads' results in
enumeration order, and (2) on success the i-th output record is the decoded
summary of the i-th enumerated directory. -/
theorem posts_order_schedule_independent (env : Env)
    (order : List (Fin (readTasks env).length)) (hcomplete : ∀ i, i ∈ order) :
    postMarkdownFilesSched env order = (readTasks env).map some ∧
    ∀ ps, posts env = .ok ps →
      ps.length = (postDirectories env).length ∧
      ∀ i (h1 : i < (postDirectories env).length) (h2 : i < ps.length),
        (readPost env ((postDirectories env).get ⟨i, h1⟩)).bind mkPost
          = .ok (ps.get ⟨i, h2⟩) := by
  constructor
  · exact runSchedule_complete (readTasks env) order hcomplete
  · intro ps hps
    unfold posts at hps
    cases hf : postMarkdownFiles env with
    | error e => rw [hf] at hps; simp at hps
    | ok files =>
      rw [hf] at hps
      have hlen1 := mapExcept_ok_length mkPost hps
      have hlen2 := mapExcept_ok_length (readPost env) hf
      refine ⟨by omega, fun i h1 h2 => ?_⟩
      have hread := mapExcept_ok_get (readPost env) hf i h1 (by omega)
      have hmk := mapExcept_ok_get mkPost hps i (by omega) h2
      rw [hread]
      exact hmk

def envTwoPosts : Env :=
  ⟨"/posts", [⟨"first", true⟩, ⟨"second", true⟩],
    fun d => if d = "first" then some goodFile
      else if d = "second" then some extraKeyFile else none⟩

/-- A completion schedule in which the second post's read finishes before
the first post's read. -/
def reversedOrder : List (Fin (readTasks envTwoPosts).length) :=
  [⟨1, by decide⟩, ⟨0, by decide⟩]

def twoPostRecords : List FmData := [onePostRecord, extraKeyRecord]

/-- Witness for `posts_order_schedule_independent` on a concrete two-post
root with a reversed completion schedule. -/
theorem posts_order_schedule_independent_witness :
    postMarkdownFilesSched envTwoPosts reversedOrder = (readTasks envTwoPosts).map some ∧
    twoPostRecords.length = (postDirectories envTwoPosts).length :=
  ⟨(posts_order_schedule_independent envTwoPosts reversedOrder (by decide)).1,
    ((posts_order_schedule_independent envTwoPosts reversedOrder (by decide)).2
      twoPostRecords (by rfl)).1⟩
